import Mathlib

/-!
Verification of the ingestion-and-normalization core of perf-report-tool
(`generate_report.py`, two variants).  Strings are modelled as their
character lists (`String.data`); text handling functions (`str.split`,
`str.strip`, `str.rsplit`, `int()`, `float()`) are re-implemented below with
structural recursion so that every definition evaluates by kernel reduction.
Numeric values parsed by Python's `float()` are modelled as exact rationals
(IEEE rounding is out of scope); Python's unbounded `int` is modelled as `Int`.
All modelling covers the ASCII subset of Python's whitespace/digit classes,
which is the alphabet of all the profiler formats involved.
-/

/-- Python's ASCII whitespace class, as used by `str.strip()`, `str.split()`
with no arguments, and the implicit strip inside `int()` / `float()`. -/
def isPyWs (c : Char) : Bool :=
  c = ' ' || c = '\t' || c = '\n' || c = '\r' || c = '\x0b' || c = '\x0c'

/-- `str.strip()` on a character list: drop whitespace from both ends. -/
def stripWs (cs : List Char) : List Char :=
  ((cs.dropWhile isPyWs).reverse.dropWhile isPyWs).reverse

/-- One token accumulation step of `str.split()` (no arguments): split on runs
of whitespace, discarding empty tokens.  `cur` holds the current token in
reverse order. -/
def splitWsGo (cur : List Char) : List Char → List (List Char)
  | [] => if cur.isEmpty then [] else [cur.reverse]
  | c :: rest =>
    if isPyWs c then
      if cur.isEmpty then splitWsGo [] rest else cur.reverse :: splitWsGo [] rest
    else splitWsGo (c :: cur) rest

/-- Python `line.split()` with no arguments. -/
def pySplitWs (cs : List Char) : List (List Char) := splitWsGo [] cs

/-- Python `s.split(sep)` for a single-character separator (the source only
splits on `';'` and `'='`).  `"".split(c) = [""]`, like Python. -/
def splitChar (sep : Char) : List Char → List (List Char)
  | [] => [[]]
  | c :: rest =>
    let r := splitChar sep rest
    if c = sep then [] :: r
    else
      match r with
      | h :: t => (c :: h) :: t
      | [] => [[c]]

/-- Whether `p` is a leading segment of `cs` (character-list level). -/
def chLeads : List Char → List Char → Bool
  | [], _ => true
  | _ :: _, [] => false
  | p :: ps, c :: cs => p = c && chLeads ps cs

/-- Python `s.startswith(p)`. -/
def strStartsWith (s p : String) : Bool := chLeads p.data s.data

/-- Whether `pat` occurs as a contiguous segment of `cs`; models Python's
substring test `pat in s`. -/
def chContainsSeg (pat : List Char) : List Char → Bool
  | [] => chLeads pat []
  | c :: cs => chLeads pat (c :: cs) || chContainsSeg pat cs

/-- Python substring containment `pat in s`. -/
def strContainsSub (s pat : String) : Bool := chContainsSeg pat.data s.data

/-- Python `s.endswith(suf)`. -/
def strEndsWith (s suf : String) : Bool := chLeads suf.data.reverse s.data.reverse

/-- A maximal run of decimal digits with single underscores allowed between
digits, as accepted inside Python numeric literals ( `int()` / `float()` ).
Returns the accumulated value, the number of digits consumed, and the rest.
Never consumes a leading underscore (callers guarantee a digit was seen). -/
def digitRun (acc n : Nat) (cs : List Char) : Nat × Nat × List Char :=
  match cs with
  | [] => (acc, n, [])
  | c :: rest =>
    if c.isDigit then digitRun (10 * acc + (c.toNat - 48)) (n + 1) rest
    else if c = '_' then
      match rest with
      | d :: rest' =>
        if d.isDigit then digitRun (10 * acc + (d.toNat - 48)) (n + 1) rest'
        else (acc, n, c :: rest)
      | [] => (acc, n, [c])
    else (acc, n, c :: rest)

/-- A `digitpart` of a Python numeric literal: must begin with a digit. -/
def digitPart (cs : List Char) : Option (Nat × Nat × List Char) :=
  match cs with
  | c :: _ => if c.isDigit then some (digitRun 0 0 cs) else none
  | [] => none

/-- Python `int(s)` on a character list: optional whitespace, optional sign,
then a digit run with underscores, then optional whitespace.  `none` models a
raised `ValueError`. -/
def pyIntCh (cs : List Char) : Option Int :=
  let cs := stripWs cs
  let core : List Char → Option Int := fun body =>
    match digitPart body with
    | some (v, _, rest) => if rest.isEmpty then some (v : Int) else none
    | none => none
  match cs with
  | '+' :: r => core r
  | '-' :: r => (core r).map (fun v => -v)
  | r => core r

/-- Python `int(s)` on a string. -/
def pyIntParse (s : String) : Option Int := pyIntCh s.data

/-- The unsigned body of a Python `float()` literal: `digitpart`,
`digitpart '.' [digitpart]`, or `'.' digitpart`, each optionally followed by
an exponent `('e'|'E') [sign] digitpart`.  (`inf` / `nan` are omitted: the
source guards every `float()` call with a digit-presence test that rejects
them.)  The value is the exact rational denoted by the literal. -/
def pyFloatCore (cs : List Char) : Option ℚ :=
  let mantissa : Option (ℚ × List Char) :=
    match digitPart cs with
    | some (ip, _, r1) =>
      match r1 with
      | '.' :: r2 =>
        match digitPart r2 with
        | some (fp, nF, r3) => some ((ip : ℚ) + (fp : ℚ) / (10 : ℚ) ^ nF, r3)
        | none => some ((ip : ℚ), r2)
      | _ => some ((ip : ℚ), r1)
    | none =>
      match cs with
      | '.' :: r2 =>
        match digitPart r2 with
        | some (fp, nF, r3) => some ((fp : ℚ) / (10 : ℚ) ^ nF, r3)
        | none => none
      | _ => none
  match mantissa with
  | none => none
  | some (m, r) =>
    match r with
    | [] => some m
    | 'e' :: rE =>
      match rE with
      | '+' :: t =>
        match digitPart t with
        | some (ev, _, r4) => if r4.isEmpty then some (m * (10 : ℚ) ^ (ev : Int)) else none
        | none => none
      | '-' :: t =>
        match digitPart t with
        | some (ev, _, r4) => if r4.isEmpty then some (m * (10 : ℚ) ^ (-(ev : Int))) else none
        | none => none
      | t =>
        match digitPart t with
        | some (ev, _, r4) => if r4.isEmpty then some (m * (10 : ℚ) ^ (ev : Int)) else none
        | none => none
    | 'E' :: rE =>
      match rE with
      | '+' :: t =>
        match digitPart t with
        | some (ev, _, r4) => if r4.isEmpty then some (m * (10 : ℚ) ^ (ev : Int)) else none
        | none => none
      | '-' :: t =>
        match digitPart t with
        | some (ev, _, r4) => if r4.isEmpty then some (m * (10 : ℚ) ^ (-(ev : Int))) else none
        | none => none
      | t =>
        match digitPart t with
        | some (ev, _, r4) => if r4.isEmpty then some (m * (10 : ℚ) ^ (ev : Int)) else none
        | none => none
    | _ => none

/-- Python `float(s)` (numeric literals): optional whitespace and sign around
`pyFloatCore`.  `none` models a raised `ValueError`. -/
def pyFloatCh (cs : List Char) : Option ℚ :=
  let cs := stripWs cs
  match cs with
  | '+' :: r => pyFloatCore r
  | '-' :: r => (pyFloatCore r).map (fun q => -q)
  | r => pyFloatCore r

/-- Python `float(s)` on a string. -/
def pyFloatParse (s : String) : Option ℚ := pyFloatCh s.data

example : pyIntParse "5" = some 5 := by decide
example : pyIntParse "-3" = some (-3) := by decide
example : pyIntParse "1_2" = some 12 := by decide
example : pyIntParse "x" = none := by decide
example : pyIntParse "" = none := by decide
example : pyFloatParse "1234" = some 1234 := by with_unfolding_all rfl
example : pyFloatParse "1e3" = some 1000 := by with_unfolding_all rfl
example : pyFloatParse "2.5" = some (5 / 2) := by with_unfolding_all rfl
example : pyFloatParse "5." = some 5 := by with_unfolding_all rfl
example : pyFloatParse ".5" = some (1 / 2) := by with_unfolding_all rfl
example : pyFloatParse "1.2.3" = none := by with_unfolding_all rfl
example : pyFloatParse "1._5" = none := by with_unfolding_all rfl
example : pyFloatParse "5e" = none := by with_unfolding_all rfl
example : pyFloatParse "1e-2" = some (1 / 100) := by with_unfolding_all rfl

/-! ## Counter-stat parser (`parse_perf_stat`)

Source (both variants identical):
```
parts = line.strip().split()
if len(parts) < 2: continue
try:
    val = parts[0].replace(",", "")
    if '<' in val or not any(c.isdigit() for c in val): continue
    value = float(val)
    metric = parts[1]
    rows.append((metric, value))
except ValueError: continue
```
A file is modelled as its list of lines (newline terminators stripped;
`int()`/`float()` strip trailing whitespace themselves, so this is
behaviour-preserving). -/

/-- The record produced from one counter-stat line, if any.  `none` covers
lines with fewer than two tokens, a `<`-marked or digit-free first token, and
a caught `ValueError` from `float()`. -/
def statLineRecord (line : String) : Option (String × ℚ) :=
  match pySplitWs line.data with
  | v :: m :: _ =>
    let val := v.filter (fun c => !(c = ','))
    if val.contains '<' || !(val.any Char.isDigit) then none
    else
      match pyFloatCh val with
      | some q => some (String.mk m, q)
      | none => none
  | _ => none

/-- Processing of one counter-stat line. -/
def statStep (rows : List (String × ℚ)) (l : String) : List (String × ℚ) :=
  match statLineRecord l with
  | some r => rows ++ [r]
  | none => rows

/-- `parse_perf_stat`: the ordered rows of the resulting DataFrame. -/
def parse_perf_stat (lines : List String) : List (String × ℚ) :=
  lines.foldl statStep []

/-! ## Stack-collapse aggregator (`parse_collapsed_stacks`)

Source (both variants identical):
```
stack_counts = {}
for line in f:
    if ' ' not in line: continue
    try:
        stack, count_str = line.rsplit(' ', 1)
        count = int(count_str)
        stack_counts[stack] = stack_counts.get(stack, 0) + count
    except ValueError: continue
func_counts = {}
for stack, count in stack_counts.items():
    funcs = stack.split(';')
    for func in funcs:
        func_counts[func] = func_counts.get(func, 0) + count
df = pd.DataFrame(list(func_counts.items()), columns=["Function", "Samples"])
return df.sort_values("Samples", ascending=False).head(top_n)
```
Python dicts preserve insertion order; they are modelled as association lists
with unique keys, new keys appended at the end. -/

/-- `line.rsplit(' ', 1)` guarded by `' ' in line`: split at the last space
character.  Walks the reversed line accumulating the trailing token. -/
def rsplitLastSpace (acc : List Char) : List Char → Option (List Char × List Char)
  | [] => none
  | c :: rest => if c = ' ' then some (rest.reverse, acc) else rsplitLastSpace (c :: acc) rest

/-- The `(stack, count)` pair parsed from one collapsed-stack line, if any. -/
def parseStackLine (line : String) : Option (String × Int) :=
  match rsplitLastSpace [] line.data.reverse with
  | none => none
  | some (stack, cstr) =>
    match pyIntCh cstr with
    | some c => some (String.mk stack, c)
    | none => none

/-- `d[k] = d.get(k, 0) + c` on an insertion-ordered Python dict: add `c` at
key `k` in place, appending `(k, c)` if `k` is absent. -/
def dinc (k : String) (c : Int) : List (String × Int) → List (String × Int)
  | [] => [(k, c)]
  | (k', v) :: rest => if k' = k then (k', v + c) :: rest else (k', v) :: dinc k c rest

/-- Processing of one collapsed-stack line into the per-stack dict. -/
def stackStep (d : List (String × Int)) (l : String) : List (String × Int) :=
  match parseStackLine l with
  | some (s, c) => dinc s c d
  | none => d

/-- The first loop of `parse_collapsed_stacks`: per-stack totals. -/
def stackCounts (lines : List String) : List (String × Int) :=
  lines.foldl stackStep []

/-- The second loop of `parse_collapsed_stacks`: per-function totals.  The
inner loop runs over `stack.split(';')` as a list, so a frame name occurring
`k` times in one stack receives the stack's count `k` times. -/
def funcInsStep (c : Int) (d : List (String × Int)) (f : List Char) : List (String × Int) :=
  dinc (String.mk f) c d

/-- Processing of one `(stack, count)` dict entry: credit every occurrence of
every frame of the stack. -/
def funcStep (d : List (String × Int)) (e : String × Int) : List (String × Int) :=
  (splitChar ';' e.1.data).foldl (funcInsStep e.2) d

def funcCounts (sc : List (String × Int)) : List (String × Int) :=
  sc.foldl funcStep []

/-- Per-function totals of a whole file. -/
def funcRows (lines : List String) : List (String × Int) :=
  funcCounts (stackCounts lines)

/-- Dictionary lookup defaulting to zero (`d.get(k, 0)`). -/
def alu {α : Type} : List (String × α) → String → Option α
  | [], _ => none
  | (k, v) :: rest, key => if k = key then some v else alu rest key

/-- The per-function total of `f`, zero if absent. -/
def lookup0 (d : List (String × Int)) (k : String) : Int :=
  (alu d k).getD 0

/-- The per-function total assigned to function `f` by `parse_collapsed_stacks`
before sorting and truncation. -/
def funcTotal (lines : List String) (f : String) : Int :=
  lookup0 (funcRows lines) f

/-- Insert `x` into a list sorted ascending by `le`, after any elements it
ties with (the placement of a stable ascending sort: numpy's introsort is
plain insertion sort below 16 elements, and Python's `sorted` is stable). -/
def insertLeB {α : Type} (le : α → α → Bool) (x : α) : List α → List α
  | [] => [x]
  | y :: ys => if le y x then y :: insertLeB le x ys else x :: y :: ys

/-- Stable ascending sort: left fold of `insertLeB`. -/
def sortLeB {α : Type} (le : α → α → Bool) (l : List α) : List α :=
  l.foldl (fun acc x => insertLeB le x acc) []

/-- Comparison on sample counts. -/
def leSamples (a b : String × Int) : Bool := a.2 ≤ b.2

/-- `df.sort_values("Samples", ascending=False)` for a single key: pandas
computes an ascending argsort with the default `kind='quicksort'` and
reverses it (`nargsort` does `indexer[::-1]` when `ascending=False`).  This
model uses a stable ascending sort, which is EXACT for tables of at most 15
rows — numpy's introsort runs a stable insertion sort below its
`SMALL_QUICKSORT` cutoff — while for larger tables numpy's quicksort is
unstable and only the order-and-multiset facts are guaranteed: the program's
output is always some descending-by-count permutation of the rows.
Accordingly, no theorem below relies on the modelled tie order except under
an explicit at-most-15-rows hypothesis or at concrete small inputs; every
other use depends only on the result being a descending permutation of the
input, which holds for the real sort at every size. -/
def sortSamplesDesc (rows : List (String × Int)) : List (String × Int) :=
  (sortLeB leSamples rows).reverse

/-- `parse_collapsed_stacks`: per-function totals, sorted by sample count
descending, truncated to `top_n` (`.head(top_n)`, default 15). -/
def parse_collapsed_stacks (lines : List String) (top_n : Nat) : List (String × Int) :=
  (sortSamplesDesc (funcRows lines)).take top_n

example : parseStackLine "main;foo;bar 5" = some ("main;foo;bar", 5) := by decide
example : parseStackLine "nospace" = none := by decide
example : funcRows ["main;foo;bar 5", "main;foo;baz 3"] =
    [("main", 8), ("foo", 8), ("bar", 5), ("baz", 3)] := by decide
example : parse_collapsed_stacks ["main;foo;bar 5", "main;foo;baz 3"] 15 =
    [("foo", 8), ("main", 8), ("bar", 5), ("baz", 3)] := by decide

/-! ## Heap-snapshot parser (`parse_valgrind_massif`)

Source (both variants identical; note the absence of any `try`/`except`):
```
for line in f:
    if line.startswith("mem_heap_B="):
        sizes.append(int(line.strip().split('=')[1]))
```
An `Except`-valued embedding: `.error ()` models an uncaught `ValueError`
escaping from `int()`. -/

/-- `line.strip().split('=')[1]` for a line known to start with
`mem_heap_B=` (such a line contains `'='`, so index 1 exists). -/
def massifVal (line : String) : List Char :=
  (splitChar '=' (stripWs line.data)).getD 1 []

/-- Processing of one massif line. -/
def massifStep (acc : List Int) (line : String) : Except Unit (List Int) :=
  if strStartsWith line "mem_heap_B=" then
    match pyIntCh (massifVal line) with
    | some n => .ok (acc ++ [n])
    | none => .error ()
  else .ok acc

/-- The massif loop with explicit accumulator. -/
def massifGo (acc : List Int) : List String → Except Unit (List Int)
  | [] => .ok acc
  | l :: ls =>
    match massifStep acc l with
    | .ok acc' => massifGo acc' ls
    | .error e => .error e

/-- `parse_valgrind_massif`: the ordered heap sizes, or an escaped
`ValueError`. -/
def parse_valgrind_massif (lines : List String) : Except Unit (List Int) :=
  massifGo [] lines

example : parse_valgrind_massif ["mem_heap_B=42", "junk", "mem_heap_B=7"] = .ok [42, 7] := rfl
example : parse_valgrind_massif ["mem_heap_B=x"] = .error () := rfl

/-! ## Benchmark parser (`parse_google_benchmark`)

Source (both variants identical):
```
try:
    with open(benchmark_path, 'r') as f:
        data = json.load(f)
    records = []
    for bench in data.get("benchmarks", []):
        if "name" in bench and "cpu_time" in bench:
            records.append((bench["name"], bench["cpu_time"]))
    return pd.DataFrame(records, columns=["Benchmark", "CPU Time (ns)"])
except Exception:
    return pd.DataFrame(columns=["Benchmark", "CPU Time (ns)"])
```
JSON values are modelled by `JVal`; a parsed document arrives as
`Except Unit JVal`, where `.error ()` stands for an unreadable file or
malformed JSON (`open` / `json.load` raising).  Objects are insertion-ordered
key/value lists; `json.load` produces unique keys, so first-match lookup
agrees with Python dict lookup.  The Python runtime behaviours that matter:
`k in d` is key membership for dicts, substring test for strings, element
membership for lists, and a `TypeError` for numbers/booleans/`None`;
subscripting with a string works only on dicts. -/

inductive JVal : Type where
  | str (s : String)
  | num (q : ℚ)
  | jTrue
  | jFalse
  | jNull
  | arr (xs : List JVal)
  | obj (kvs : List (String × JVal))

mutual

/-- Structural equality test on JSON values (used only to evaluate Python's
`x in list`). -/
def jvalBeq : JVal → JVal → Bool
  | .str a, .str b => a = b
  | .num a, .num b => a = b
  | .jTrue, .jTrue => true
  | .jFalse, .jFalse => true
  | .jNull, .jNull => true
  | .arr xs, .arr ys => jvalListBeq xs ys
  | .obj xs, .obj ys => jvalKvsBeq xs ys
  | _, _ => false

/-- Equality test on JSON value lists. -/
def jvalListBeq : List JVal → List JVal → Bool
  | [], [] => true
  | x :: xs, y :: ys => jvalBeq x y && jvalListBeq xs ys
  | _, _ => false

/-- Equality test on JSON key/value lists. -/
def jvalKvsBeq : List (String × JVal) → List (String × JVal) → Bool
  | [], [] => true
  | (k1, v1) :: xs, (k2, v2) :: ys => k1 = k2 && jvalBeq v1 v2 && jvalKvsBeq xs ys
  | _, _ => false

end

/-- Whether a JSON value is an object (a Python dict after `json.load`). -/
def JVal.isObjB : JVal → Bool
  | .obj _ => true
  | _ => false

/-- Python `key in v`: dict key membership, substring test on strings,
element membership on lists, `TypeError` (modelled `.error ()`) otherwise. -/
def pyIn (key : String) : JVal → Except Unit Bool
  | .obj kvs => .ok (kvs.any (fun kv => kv.1 = key))
  | .str s => .ok (strContainsSub s key)
  | .arr xs => .ok (xs.any (fun x => jvalBeq x (.str key)))
  | _ => .error ()

/-- Python `v[key]` for a string key: dict lookup (`KeyError` if absent),
`TypeError` on every other value. -/
def pySubscript (v : JVal) (key : String) : Except Unit JVal :=
  match v with
  | .obj kvs =>
    match alu kvs key with
    | some x => .ok x
    | none => .error ()
  | _ => .error ()

/-- Python `for bench in v`: list elements, dict keys, characters of a
string, `TypeError` otherwise. -/
def pyIter : JVal → Except Unit (List JVal)
  | .arr xs => .ok xs
  | .obj kvs => .ok (kvs.map (fun kv => .str kv.1))
  | .str s => .ok (s.data.map (fun c => .str (String.mk [c])))
  | _ => .error ()

/-- Python `data.get("benchmarks", [])`: requires `data` to be a dict
(anything else has no `.get` and raises `AttributeError`). -/
def jGetBenchmarks (v : JVal) : Except Unit JVal :=
  match v with
  | .obj kvs => .ok ((alu kvs "benchmarks").getD (.arr []))
  | _ => .error ()

/-- Processing of one entry of the benchmarks iterable, appending at most one
record.  `if "name" in bench and "cpu_time" in bench` short-circuits. -/
def benchStep (recs : List (JVal × JVal)) (bench : JVal) : Except Unit (List (JVal × JVal)) :=
  match pyIn "name" bench with
  | .error e => .error e
  | .ok false => .ok recs
  | .ok true =>
    match pyIn "cpu_time" bench with
    | .error e => .error e
    | .ok false => .ok recs
    | .ok true =>
      match pySubscript bench "name" with
      | .error e => .error e
      | .ok n =>
        match pySubscript bench "cpu_time" with
        | .error e => .error e
        | .ok t => .ok (recs ++ [(n, t)])

/-- The benchmark loop with explicit accumulator. -/
def benchGo (recs : List (JVal × JVal)) : List JVal → Except Unit (List (JVal × JVal))
  | [] => .ok recs
  | b :: bs =>
    match benchStep recs b with
    | .ok recs' => benchGo recs' bs
    | .error e => .error e

/-- The body of the `try` block. -/
def benchBody (input : Except Unit JVal) : Except Unit (List (JVal × JVal)) :=
  match input with
  | .error e => .error e
  | .ok data =>
    match jGetBenchmarks data with
    | .error e => .error e
    | .ok bv =>
      match pyIter bv with
      | .error e => .error e
      | .ok items => benchGo [] items

/-- `parse_google_benchmark`: the rows of the resulting DataFrame.  The
catch-all `except Exception` turns any raised error into an empty table,
discarding all records accumulated so far. -/
def parse_google_benchmark (input : Except Unit JVal) : List (JVal × JVal) :=
  match benchBody input with
  | .ok r => r
  | .error _ => []

/-- The record an object entry would contribute (the well-behaved per-entry
semantics the spec describes). -/
def objRecord : JVal → Option (JVal × JVal) :=
  fun bench =>
    match bench with
    | .obj kvs =>
      match alu kvs "name", alu kvs "cpu_time" with
      | some n, some t => some (n, t)
      | _, _ => none
    | _ => none

example : parse_google_benchmark (.error ()) = [] := rfl
example : parse_google_benchmark (.ok (.obj [])) = [] := rfl
example : parse_google_benchmark
    (.ok (.obj [("benchmarks", .arr [.obj [("name", .str "A"), ("cpu_time", .num 5)],
                                     .obj [("name", .str "B")]])])) =
    [(.str "A", .num 5)] := rfl

/-! ## Artifact selector

Variant `src/generate_report.py` (top level):
```
stat_file = sorted([f for f in os.listdir(stat_dir) if "perf-stat" in f],
                   key=lambda x: os.path.getmtime(...))[-1]
collapsed_file = sorted([f for f in os.listdir(collapsed_dir) if f.endswith(".txt")],
                        key=lambda x: os.path.getmtime(...))[-1]
```
Variant `src/src/generate_report.py`:
```
stat_file = max((f for f in stat_dir.iterdir() if f.name.startswith("perf-stat")),
                key=lambda f: f.stat().st_mtime)
```
A directory listing with a fixed modification-time snapshot is modelled as a
list of `(name, mtime)` pairs in enumeration order.  Python's `sorted` is
stable (Timsort), so `sorted(...)[-1]` is the last-enumerated entry among
those sharing the maximal mtime; `max` keeps the first-enumerated one. -/

/-- Comparison on modification times. -/
def leMtime (a b : String × Nat) : Bool := a.2 ≤ b.2

/-- `sorted(entries, key=mtime)[-1]` (`none` only on an empty listing, where
the source raises `IndexError`). -/
def selectLatestSorted (es : List (String × Nat)) : Option (String × Nat) :=
  (sortLeB leMtime es).getLast?

/-- `max(entries, key=mtime)` (first maximal element; `none` on an empty
listing, where the source raises `ValueError`). -/
def maxStep (best : Option (String × Nat)) (e : String × Nat) : Option (String × Nat) :=
  match best with
  | none => some e
  | some b => if b.2 < e.2 then some e else some b

def selectLatestMax (es : List (String × Nat)) : Option (String × Nat) :=
  es.foldl maxStep none

/-- The perf-stat name filter `"perf-stat" in f`. -/
def matchesStat (name : String) : Bool := strContainsSub name "perf-stat"

/-- The collapsed-stack name filter `f.endswith(".txt")`. -/
def matchesTxt (name : String) : Bool := strEndsWith name ".txt"

/-- Newest perf-stat file (sorted variant). -/
def selStatFile (es : List (String × Nat)) : Option (String × Nat) :=
  selectLatestSorted (es.filter (fun e => matchesStat e.1))

/-- Newest `.txt` collapsed-stack file (sorted variant). -/
def selCollapsedFile (es : List (String × Nat)) : Option (String × Nat) :=
  selectLatestSorted (es.filter (fun e => matchesTxt e.1))

example : selStatFile [("perf-stat-a.txt", 3), ("perf-stat-b.txt", 7), ("other", 9)] =
    some ("perf-stat-b.txt", 7) := by decide
example : selectLatestSorted [("b", 5), ("a", 5)] = some ("a", 5) := by decide
example : selectLatestSorted [("a", 5), ("b", 5)] = some ("b", 5) := by decide
example : selectLatestMax [("b", 5), ("a", 5)] = some ("b", 5) := by decide

/-! ## Output path resolver (`_unique_version_dir`)

Source (`src/src/generate_report.py`):
```
candidate = base_dir / requested
if not candidate.exists():
    return candidate
timestamp = datetime.now().strftime("%Y%m%d-%H%M%S")
return base_dir / f"{requested}_{timestamp}"
```
The filesystem state is modelled as the list of existing paths; `ts` is the
`%Y%m%d-%H%M%S` string produced by `datetime.now()` at the moment of the
call. -/

/-- `_unique_version_dir` over an explicit set of existing paths. -/
def uniqueVersionDir (existing : List String) (base requested ts : String) : String :=
  let candidate := base ++ "/" ++ requested
  if candidate ∈ existing then base ++ "/" ++ (requested ++ "_" ++ ts)
  else candidate

example : uniqueVersionDir [] "b" "r" "20260101-120000" = "b/r" := by decide
example : uniqueVersionDir ["b/r"] "b" "r" "20260101-120000" = "b/r_20260101-120000" := by decide

/-! ## Aggregation lemmas: a closed form for the per-function totals -/

/-- The number of occurrences of frame name `f` in the frame list of
`stack.split(';')`. -/
def occCount (f stack : String) : Nat :=
  ((splitChar ';' stack.data).map String.mk).count f

/-- The contribution of one line to the per-function total of `f`: its count
times the number of occurrences of `f` in its stack, zero for skipped
lines. -/
def gLine (f line : String) : Int :=
  match parseStackLine line with
  | some (s, c) => c * (occCount f s : Int)
  | none => 0

/-- The contribution of one per-stack dict entry to the total of `f`. -/
def stackContrib (f : String) (e : String × Int) : Int :=
  e.2 * (occCount f e.1 : Int)

/-- The total of `f` encoded in a per-stack dict. -/
def Fsum (f : String) (d : List (String × Int)) : Int :=
  (d.map (stackContrib f)).sum

theorem lookup0_nil (k : String) : lookup0 [] k = 0 := rfl

theorem lookup0_cons (a : String × Int) (d : List (String × Int)) (k : String) :
    lookup0 (a :: d) k = if a.1 = k then a.2 else lookup0 d k := by
  obtain ⟨x, v⟩ := a
  by_cases h : x = k <;> simp [lookup0, alu, h]

theorem lookup0_dinc (k : String) (c : Int) :
    ∀ (d : List (String × Int)) (k' : String),
      lookup0 (dinc k c d) k' = lookup0 d k' + (if k' = k then c else 0) := by
  intro d
  induction d with
  | nil =>
    intro k'
    by_cases h : k' = k
    · subst h; simp [dinc, lookup0, alu]
    · simp [dinc, lookup0, alu, h, Ne.symm h]
  | cons e rest ih =>
    intro k'
    obtain ⟨a, v⟩ := e
    by_cases hak : a = k
    · subst hak
      by_cases hk' : a = k'
      · subst hk'
        simp [dinc, lookup0_cons]
      · have hne : k' ≠ a := fun h => hk' h.symm
        simp [dinc, lookup0_cons, hk', hne]
    · by_cases hk' : a = k'
      · subst hk'
        have hne : a ≠ k := hak
        simp [dinc, hak, lookup0_cons, hne]
      · simp [dinc, hak, lookup0_cons, hk', ih k']

theorem lookup0_foldl_funcIns (c : Int) :
    ∀ (fs : List (List Char)) (d : List (String × Int)) (k : String),
      lookup0 (fs.foldl (funcInsStep c) d) k =
        lookup0 d k + c * (((fs.map String.mk).count k : Nat) : Int) := by
  intro fs
  induction fs with
  | nil => intro d k; simp
  | cons g fs ih =>
    intro d k
    rw [List.foldl_cons, ih, funcInsStep, lookup0_dinc]
    by_cases h : String.mk g = k
    · simp [List.count_cons, h, mul_add]
      ring
    · have h' : ¬ (k = String.mk g) := fun hh => h hh.symm
      simp [List.count_cons, h, h']

theorem lookup0_foldl_funcStep :
    ∀ (sc : List (String × Int)) (d : List (String × Int)) (f : String),
      lookup0 (sc.foldl funcStep d) f = lookup0 d f + Fsum f sc := by
  intro sc
  induction sc with
  | nil => intro d f; simp [Fsum]
  | cons e sc ih =>
    intro d f
    rw [List.foldl_cons, ih, funcStep, lookup0_foldl_funcIns]
    simp [Fsum, stackContrib, occCount]
    ring

theorem Fsum_dinc (f s : String) (c : Int) :
    ∀ d : List (String × Int), Fsum f (dinc s c d) = Fsum f d + c * (occCount f s : Int) := by
  intro d
  induction d with
  | nil => simp [Fsum, dinc, stackContrib]
  | cons e rest ih =>
    obtain ⟨a, v⟩ := e
    by_cases h : a = s
    · subst h
      simp [dinc, Fsum, stackContrib]
      ring
    · simp [dinc, h, Fsum, stackContrib] at ih ⊢
      rw [ih]
      ring

theorem Fsum_stackGo :
    ∀ (lines : List String) (d : List (String × Int)) (f : String),
      Fsum f (lines.foldl stackStep d) = Fsum f d + (lines.map (gLine f)).sum := by
  intro lines
  induction lines with
  | nil => intro d f; simp
  | cons l ls ih =>
    intro d f
    rw [List.foldl_cons, ih]
    cases hp : parseStackLine l with
    | none => simp [stackStep, gLine, hp]
    | some sc =>
      obtain ⟨s, c⟩ := sc
      simp [stackStep, gLine, hp, Fsum_dinc]
      ring

/-- The per-function total of `f` is the sum over all lines of the line's
count times the number of occurrences of `f` in the line's stack. -/
theorem funcTotal_eq_sum (lines : List String) (f : String) :
    funcTotal lines f = (lines.map (gLine f)).sum := by
  unfold funcTotal funcRows funcCounts stackCounts
  rw [lookup0_foldl_funcStep, lookup0_nil, zero_add]
  have h := Fsum_stackGo lines [] f
  simp [Fsum] at h ⊢
  exact h

/-- Claim C7 (confirmed): per-function aggregation is additive under file
concatenation and commutative: the totals of `l1 ++ l2` are the pointwise
sums of the totals of `l1` and of `l2`, and equal the totals of
`l2 ++ l1`; in particular aggregating a file twice and summing equals
aggregating the file concatenated with itself. -/
theorem c7_theorem (l1 l2 : List String) (f : String) :
    funcTotal (l1 ++ l2) f = funcTotal l1 f + funcTotal l2 f ∧
    funcTotal (l1 ++ l2) f = funcTotal (l2 ++ l1) f ∧
    funcTotal (l1 ++ l1) f = funcTotal l1 f + funcTotal l1 f := by
  refine ⟨?_, ?_, ?_⟩
  all_goals simp [funcTotal_eq_sum, List.map_append, List.sum_append]
  all_goals ring

/-- Claim C1 (counterexample): on the single-line file `a;b;a 5` the code
credits function `a` with 10 = 2 × 5, once per occurrence, whereas the claim
(once per distinct name) demands 5. -/
theorem c1_counterexample :
    funcTotal ["a;b;a 5"] "a" = 10 ∧ (10 : Int) ≠ 5 := by
  exact ⟨by decide, by decide⟩

/-- Claim C1 (amended): each valid line's trailing count is added to the
per-function total of a frame name once per occurrence of that name in the
line's stack (a name occurring three times receives the count three times);
for the two-line input `main;foo;bar 5`, `main;foo;baz 3`, whose stacks have
no repeated frame, the totals are exactly main:8, foo:8, bar:5, baz:3. -/
theorem c1_amended :
    (∀ (lines : List String) (f : String),
      funcTotal lines f = (lines.map (gLine f)).sum) ∧
    funcTotal ["main;foo;bar 5", "main;foo;baz 3"] "main" = 8 ∧
    funcTotal ["main;foo;bar 5", "main;foo;baz 3"] "foo" = 8 ∧
    funcTotal ["main;foo;bar 5", "main;foo;baz 3"] "bar" = 5 ∧
    funcTotal ["main;foo;bar 5", "main;foo;baz 3"] "baz" = 3 ∧
    funcRows ["main;foo;bar 5", "main;foo;baz 3"] =
      [("main", 8), ("foo", 8), ("bar", 5), ("baz", 3)] := by
  exact ⟨funcTotal_eq_sum, by decide, by decide, by decide, by decide, by decide⟩

/-! ## C2: error behaviour of the parsers on malformed lines -/

theorem massifGo_ok_iff :
    ∀ (lines : List String) (acc : List Int),
      (massifGo acc lines).isOk = true ↔
        ∀ l ∈ lines, strStartsWith l "mem_heap_B=" = true → (pyIntCh (massifVal l)).isSome = true := by
  intro lines
  induction lines with
  | nil => intro acc; simp [massifGo, Except.isOk, Except.toBool]
  | cons l ls ih =>
    intro acc
    by_cases hs : strStartsWith l "mem_heap_B=" = true
    · cases hv : pyIntCh (massifVal l) with
      | some n =>
        simp [massifGo, massifStep, hs, hv, ih]
      | none =>
        simp [massifGo, massifStep, hs, hv, Except.isOk, Except.toBool]
    · simp [massifGo, massifStep, hs, ih]

/-- Claim C2 (counterexample): `parse_valgrind_massif` raises an uncaught
`ValueError` on a file containing the line `mem_heap_B=x` — the heap-snapshot
parser does not skip malformed lines, contradicting the claim that no parser
raises on a malformed individual line. -/
theorem c2_counterexample :
    parse_valgrind_massif ["mem_heap_B=x"] = .error () ∧
    (parse_valgrind_massif ["mem_heap_B=x"]).isOk = false := ⟨rfl, rfl⟩

/-- Claim C2 (amended): the counter-stat parser, stack-collapse aggregator and
benchmark parser are total (their embeddings return plain lists; malformed
lines and entries are skipped inside them), but `parse_valgrind_massif`
returns normally if and only if every line starting with `mem_heap_B=` carries
an integer value part; a `mem_heap_B=` line whose value part is not an
integer raises `ValueError`. -/
theorem c2_amended (lines : List String) :
    (parse_valgrind_massif lines).isOk = true ↔
      ∀ l ∈ lines, strStartsWith l "mem_heap_B=" = true →
        (pyIntCh (massifVal l)).isSome = true :=
  massifGo_ok_iff lines []

/-- Witness for C2: on the file `["mem_heap_B=42", "junk"]` every
`mem_heap_B=` line has an integer value, and the parser indeed returns
normally. -/
theorem c2_witness : (parse_valgrind_massif ["mem_heap_B=42", "junk"]).isOk = true :=
  (c2_amended ["mem_heap_B=42", "junk"]).mpr (by decide)

/-! ## C5: acceptance condition of the counter-stat parser -/

theorem foldl_statStep_eq :
    ∀ (lines : List String) (acc : List (String × ℚ)),
      lines.foldl statStep acc = acc ++ lines.filterMap statLineRecord := by
  intro lines
  induction lines with
  | nil => intro acc; simp
  | cons l ls ih =>
    intro acc
    cases hp : statLineRecord l with
    | none => simp [statStep, hp, ih]
    | some r => simp [statStep, hp, ih]

/-- Modelled from the spec's words, for comparison with `statLineRecord`: a
first token that — after removing commas — "consists of digit characters
(optionally containing a decimal point)": nonempty, at least one digit, every
character a digit or a decimal point, at most one decimal point. -/
def specStatTokenOk (cs : List Char) : Bool :=
  !cs.isEmpty && cs.all (fun c => c.isDigit || c = '.') &&
    cs.count '.' ≤ 1 && cs.any Char.isDigit

/-- Claim C5 (counterexample): the line `1e3 cycles` produces the record
`(cycles, 1000)` — `float()` accepts the exponent form — although its first
token does not consist of digit characters with an optional decimal point, so
the claimed acceptance condition is not an `iff` on the code. -/
theorem c5_counterexample :
    parse_perf_stat ["1e3 cycles"] = [("cycles", 1000)] ∧
    specStatTokenOk ("1e3".data) = false := by
  constructor
  · with_unfolding_all rfl
  · decide

/-- Claim C5 (amended): a line produces a record iff it has at least two
whitespace-separated tokens and its comma-stripped first token contains no
`<`, contains at least one digit, and parses as a Python float literal (which
admits signs and exponents, not only digits with an optional decimal point);
the record's value is the parsed number (modelled exactly) and its name is
the second token.  The two-line scenario yields exactly
`(cache-misses, 1234)`. -/
theorem statLineRecord_cons (line : String) (v m : List Char) (rest : List (List Char))
    (hsplit : pySplitWs line.data = v :: m :: rest) :
    statLineRecord line =
      (if ((v.filter (fun c => !(c = ','))).contains '<' ||
           !(v.filter (fun c => !(c = ','))).any Char.isDigit) = true then none
       else
         match pyFloatCh (v.filter (fun c => !(c = ','))) with
         | some q => some (String.mk m, q)
         | none => none) := by
  unfold statLineRecord
  rw [hsplit]

theorem c5_amended :
    (∀ lines : List String, parse_perf_stat lines = lines.filterMap statLineRecord) ∧
    (∀ (line : String) (v m : List Char) (rest : List (List Char)),
      pySplitWs line.data = v :: m :: rest →
      statLineRecord line =
        (if (v.filter (fun c => !(c = ','))).contains '<' = false ∧
            (v.filter (fun c => !(c = ','))).any Char.isDigit = true then
          (pyFloatCh (v.filter (fun c => !(c = ',')))).map (fun q => (String.mk m, q))
        else none)) ∧
    (∀ line : String, (pySplitWs line.data).length < 2 → statLineRecord line = none) ∧
    parse_perf_stat ["1,234 cache-misses", "<not counted> branch-misses"] =
      [("cache-misses", 1234)] := by
  refine ⟨fun lines => foldl_statStep_eq lines [], ?_, ?_, ?_⟩
  · intro line v m rest hsplit
    rw [statLineRecord_cons line v m rest hsplit]
    cases hc : (v.filter (fun c => !(c = ','))).contains '<' <;>
      cases hd : (v.filter (fun c => !(c = ','))).any Char.isDigit
    · rfl
    · cases hq : pyFloatCh (v.filter (fun c => !(c = ','))) <;> rfl
    · rfl
    · rfl
  · intro line hlen
    unfold statLineRecord
    cases hsplit : pySplitWs line.data with
    | nil => rfl
    | cons v tail =>
      cases tail with
      | nil => rfl
      | cons m rest =>
        exfalso
        rw [hsplit] at hlen
        simp only [List.length_cons] at hlen
        omega
  · with_unfolding_all rfl

/-- Witness for C5: applying the amended acceptance characterization to the
concrete line `7 widgets` yields the record `(widgets, 7)`. -/
theorem c5_witness : statLineRecord "7 widgets" = some ("widgets", 7) := by
  have h := c5_amended.2.1 "7 widgets" ['7'] "widgets".data [] (by decide)
  rw [h]
  with_unfolding_all rfl

/-! ## Sorting lemmas: permutation, sortedness and stability of `sortLeB` -/

theorem insertLeB_perm {α : Type} (le : α → α → Bool) (x : α) :
    ∀ l : List α, List.Perm (insertLeB le x l) (x :: l) := by
  intro l
  induction l with
  | nil => exact List.Perm.refl _
  | cons y ys ih =>
    cases hb : le y x with
    | true =>
      rw [insertLeB, if_pos hb]
      exact (List.Perm.cons y ih).trans (List.Perm.swap x y ys)
    | false =>
      rw [insertLeB, if_neg (by simp [hb])]

theorem foldl_insertLeB_perm {α : Type} (le : α → α → Bool) :
    ∀ (l acc : List α), List.Perm (l.foldl (fun a y => insertLeB le y a) acc) (acc ++ l) := by
  intro l
  induction l with
  | nil => intro acc; simp
  | cons x l ih =>
    intro acc
    rw [List.foldl_cons]
    refine (ih (insertLeB le x acc)).trans ?_
    refine (List.Perm.append_right l (insertLeB_perm le x acc)).trans ?_
    exact List.perm_middle.symm

theorem sortLeB_perm {α : Type} (le : α → α → Bool) (l : List α) :
    List.Perm (sortLeB le l) l := by
  have h := foldl_insertLeB_perm le l []
  simpa [sortLeB] using h

theorem mem_insertLeB {α : Type} (le : α → α → Bool) (x z : α) (l : List α) :
    z ∈ insertLeB le x l ↔ z = x ∨ z ∈ l := by
  rw [(insertLeB_perm le x l).mem_iff]
  simp

theorem insertLeB_pairwise {α : Type} (le : α → α → Bool)
    (hTot : ∀ a b, le a b = true ∨ le b a = true)
    (hTrans : ∀ a b c, le a b = true → le b c = true → le a c = true)
    (x : α) :
    ∀ l : List α, l.Pairwise (fun a b => le a b = true) →
      (insertLeB le x l).Pairwise (fun a b => le a b = true) := by
  intro l
  induction l with
  | nil => intro _; simp [insertLeB]
  | cons y ys ih =>
    intro hp
    rw [List.pairwise_cons] at hp
    obtain ⟨hy, hys⟩ := hp
    cases hb : le y x with
    | true =>
      rw [insertLeB, if_pos hb, List.pairwise_cons]
      refine ⟨?_, ih hys⟩
      intro z hz
      rcases (mem_insertLeB le x z ys).1 hz with rfl | hzys
      · exact hb
      · exact hy z hzys
    | false =>
      have hxy : le x y = true := by
        rcases hTot x y with h | h
        · exact h
        · rw [h] at hb; cases hb
      rw [insertLeB, if_neg (by simp [hb]), List.pairwise_cons]
      constructor
      · intro z hz
        rcases List.mem_cons.1 hz with rfl | hzys
        · exact hxy
        · exact hTrans x y z hxy (hy z hzys)
      · exact List.pairwise_cons.mpr ⟨hy, hys⟩

theorem sortLeB_pairwise {α : Type} (le : α → α → Bool)
    (hTot : ∀ a b, le a b = true ∨ le b a = true)
    (hTrans : ∀ a b c, le a b = true → le b c = true → le a c = true) :
    ∀ l : List α, (sortLeB le l).Pairwise (fun a b => le a b = true) := by
  have gen : ∀ (l acc : List α), acc.Pairwise (fun a b => le a b = true) →
      (l.foldl (fun a y => insertLeB le y a) acc).Pairwise (fun a b => le a b = true) := by
    intro l
    induction l with
    | nil => intro acc h; simpa using h
    | cons x l ih =>
      intro acc h
      rw [List.foldl_cons]
      exact ih (insertLeB le x acc) (insertLeB_pairwise le hTot hTrans x acc h)
  intro l
  exact gen l [] List.Pairwise.nil

theorem keys_dinc_mem (k : String) (c : Int) :
    ∀ (d : List (String × Int)) (k' : String),
      k' ∈ (dinc k c d).map Prod.fst ↔ k' ∈ d.map Prod.fst ∨ k' = k := by
  intro d
  induction d with
  | nil => intro k'; simp [dinc]
  | cons e rest ih =>
    intro k'
    obtain ⟨a, v⟩ := e
    by_cases h : a = k
    · subst h
      simp [dinc]
      tauto
    · simp [dinc, h, ih]
      tauto

theorem keys_dinc_nodup (k : String) (c : Int) :
    ∀ d : List (String × Int), (d.map Prod.fst).Nodup → ((dinc k c d).map Prod.fst).Nodup := by
  intro d
  induction d with
  | nil => intro _; simp [dinc]
  | cons e rest ih =>
    intro hn
    obtain ⟨a, v⟩ := e
    simp only [List.map_cons, List.nodup_cons] at hn
    by_cases h : a = k
    · subst h
      simpa [dinc] using hn
    · simp only [dinc, h, if_false, List.map_cons, List.nodup_cons]
      refine ⟨?_, ih hn.2⟩
      intro hmem
      rcases (keys_dinc_mem k c rest a).1 hmem with h1 | h1
      · exact hn.1 h1
      · exact h h1

theorem keys_nodup_foldl_funcIns (c : Int) :
    ∀ (fs : List (List Char)) (d : List (String × Int)),
      (d.map Prod.fst).Nodup → ((fs.foldl (funcInsStep c) d).map Prod.fst).Nodup := by
  intro fs
  induction fs with
  | nil => intro d h; simpa using h
  | cons g fs ih =>
    intro d h
    rw [List.foldl_cons]
    exact ih _ (keys_dinc_nodup _ _ d h)

theorem keys_nodup_foldl_funcStep :
    ∀ (sc : List (String × Int)) (d : List (String × Int)),
      (d.map Prod.fst).Nodup → ((sc.foldl funcStep d).map Prod.fst).Nodup := by
  intro sc
  induction sc with
  | nil => intro d h; simpa using h
  | cons e sc ih =>
    intro d h
    rw [List.foldl_cons]
    exact ih _ (keys_nodup_foldl_funcIns e.2 _ d h)

theorem keys_nodup_stackGo :
    ∀ (lines : List String) (d : List (String × Int)),
      (d.map Prod.fst).Nodup → ((lines.foldl stackStep d).map Prod.fst).Nodup := by
  intro lines
  induction lines with
  | nil => intro d h; simpa using h
  | cons l ls ih =>
    intro d h
    rw [List.foldl_cons]
    cases hp : parseStackLine l with
    | none => exact ih _ (by simpa [stackStep, hp] using h)
    | some sc =>
      obtain ⟨s, c⟩ := sc
      exact ih _ (by simpa [stackStep, hp] using keys_dinc_nodup s c d h)

theorem funcRows_keys_nodup (lines : List String) :
    ((funcRows lines).map Prod.fst).Nodup := by
  unfold funcRows funcCounts stackCounts
  exact keys_nodup_foldl_funcStep _ [] (by simp)

theorem dinc_vals (k : String) (c : Int) (hc : 0 ≤ c) :
    ∀ d : List (String × Int), (∀ e ∈ d, 0 ≤ e.2) → ∀ e ∈ dinc k c d, 0 ≤ e.2 := by
  intro d
  induction d with
  | nil =>
    intro _ e he
    simp [dinc] at he
    simp [he, hc]
  | cons a rest ih =>
    intro hinv e he
    obtain ⟨x, v⟩ := a
    by_cases h : x = k
    · subst h
      simp [dinc] at he
      rcases he with he | he
      · have hv : 0 ≤ v := by simpa using hinv (x, v) (by simp)
        simp [he]
        exact add_nonneg hv hc
      · exact hinv e (List.mem_cons_of_mem _ he)
    · simp [dinc, h] at he
      rcases he with he | he
      · simpa [he] using hinv (x, v) (by simp)
      · exact ih (fun e' he' => hinv e' (List.mem_cons_of_mem _ he')) e he

theorem vals_foldl_funcIns (c : Int) (hc : 0 ≤ c) :
    ∀ (fs : List (List Char)) (d : List (String × Int)),
      (∀ e ∈ d, 0 ≤ e.2) → ∀ e ∈ fs.foldl (funcInsStep c) d, 0 ≤ e.2 := by
  intro fs
  induction fs with
  | nil => intro d h; simpa using h
  | cons g fs ih =>
    intro d h
    rw [List.foldl_cons]
    exact ih _ (dinc_vals _ _ hc d h)

theorem vals_foldl_funcStep :
    ∀ (sc : List (String × Int)) (d : List (String × Int)),
      (∀ e ∈ sc, 0 ≤ e.2) → (∀ e ∈ d, 0 ≤ e.2) →
      ∀ e ∈ sc.foldl funcStep d, 0 ≤ e.2 := by
  intro sc
  induction sc with
  | nil => intro d _ h; simpa using h
  | cons a sc ih =>
    intro d hsc h
    rw [List.foldl_cons]
    refine ih _ (fun e he => hsc e (List.mem_cons_of_mem _ he)) ?_
    exact vals_foldl_funcIns a.2 (hsc a (List.mem_cons_self _ _)) _ d h

theorem vals_stackGo :
    ∀ (lines : List String) (d : List (String × Int)),
      (∀ l ∈ lines, 0 ≤ ((parseStackLine l).map Prod.snd).getD 0) →
      (∀ e ∈ d, 0 ≤ e.2) → ∀ e ∈ lines.foldl stackStep d, 0 ≤ e.2 := by
  intro lines
  induction lines with
  | nil => intro d _ h; simpa using h
  | cons l ls ih =>
    intro d hl h
    rw [List.foldl_cons]
    refine ih _ (fun l' hl' => hl l' (List.mem_cons_of_mem _ hl')) ?_
    cases hp : parseStackLine l with
    | none => simpa [stackStep, hp] using h
    | some sc =>
      obtain ⟨s, c⟩ := sc
      have hc : 0 ≤ c := by simpa [hp] using hl l (List.mem_cons_self _ _)
      simpa [stackStep, hp] using dinc_vals s c hc d h

theorem funcRows_vals (lines : List String)
    (h : ∀ l ∈ lines, 0 ≤ ((parseStackLine l).map Prod.snd).getD 0) :
    ∀ e ∈ funcRows lines, 0 ≤ e.2 := by
  unfold funcRows funcCounts stackCounts
  refine vals_foldl_funcStep _ [] ?_ (by simp)
  exact vals_stackGo lines [] h (by simp)

/-- Claim C9 (counterexample): the line `main -1` is accepted (`int()` parses
negative counts), so the aggregate contains the record `(main, -1)` with a
negative sample count, contradicting `sample_count ≥ 0`. -/
theorem c9_counterexample :
    parse_collapsed_stacks ["main -1"] 15 = [("main", -1)] ∧ ¬ (0 ≤ (-1 : Int)) :=
  ⟨by decide, by decide⟩

/-- Claim C9 (amended): function names are unique in the output of
`parse_collapsed_stacks`, and every sample count is an integer that is
non-negative PROVIDED every parsed line's trailing count is non-negative
(the code accepts negative trailing counts, which propagate). -/
theorem c9_amended (lines : List String) (n : Nat) :
    ((parse_collapsed_stacks lines n).map Prod.fst).Nodup ∧
    ((∀ l ∈ lines, 0 ≤ ((parseStackLine l).map Prod.snd).getD 0) →
      ∀ r ∈ parse_collapsed_stacks lines n, 0 ≤ r.2) := by
  constructor
  · have h0 := funcRows_keys_nodup lines
    have hperm := (sortLeB_perm leSamples (funcRows lines)).map Prod.fst
    have h1 : ((sortLeB leSamples (funcRows lines)).map Prod.fst).Nodup :=
      (hperm.nodup_iff).2 h0
    have h2 : ((sortSamplesDesc (funcRows lines)).map Prod.fst).Nodup := by
      unfold sortSamplesDesc
      rw [List.map_reverse]
      exact List.nodup_reverse.2 h1
    unfold parse_collapsed_stacks
    rw [List.map_take]
    exact List.Nodup.sublist (List.take_sublist n _) h2
  · intro h r hr
    have h1 : r ∈ sortSamplesDesc (funcRows lines) :=
      (List.take_sublist n _).subset hr
    have h2 : r ∈ sortLeB leSamples (funcRows lines) := by
      unfold sortSamplesDesc at h1
      exact List.mem_reverse.1 h1
    have h3 : r ∈ funcRows lines := (sortLeB_perm leSamples _).mem_iff.1 h2
    exact funcRows_vals lines h r h3

/-- Witness for C9: on a two-line file with non-negative counts the output
has unique names and non-negative sample counts. -/
theorem c9_witness :
    ((parse_collapsed_stacks ["main;foo;bar 5", "w 2"] 15).map Prod.fst).Nodup ∧
    ∀ r ∈ parse_collapsed_stacks ["main;foo;bar 5", "w 2"] 15, 0 ≤ r.2 :=
  ⟨(c9_amended ["main;foo;bar 5", "w 2"] 15).1,
   (c9_amended ["main;foo;bar 5", "w 2"] 15).2 (by decide)⟩

/-! ## C3: artifact selection -/

theorem leMtime_total (a b : String × Nat) : leMtime a b = true ∨ leMtime b a = true := by
  simp [leMtime]
  exact Nat.le_total a.2 b.2

theorem leMtime_trans (a b c : String × Nat) :
    leMtime a b = true → leMtime b c = true → leMtime a c = true := by
  simp [leMtime]
  exact fun h1 h2 => le_trans h1 h2

theorem pairwise_le_getLast {α : Type} (le : α → α → Bool) (hRefl : ∀ a, le a a = true) :
    ∀ (l : List α) (h : l ≠ []), l.Pairwise (fun a b => le a b = true) →
      ∀ x ∈ l, le x (l.getLast h) = true := by
  intro l
  induction l with
  | nil => intro h; exact absurd rfl h
  | cons a t ih =>
    intro h hp x hx
    cases t with
    | nil =>
      simp at hx
      subst hx
      simpa using hRefl x
    | cons b t' =>
      rw [List.pairwise_cons] at hp
      obtain ⟨ha, hp'⟩ := hp
      have hlast : (a :: b :: t').getLast h = (b :: t').getLast (by simp) :=
        List.getLast_cons (by simp)
      rcases List.mem_cons.1 hx with rfl | hxt
      · rw [hlast]
        exact ha _ (List.getLast_mem _)
      · rw [hlast]
        exact ih (by simp) hp' x hxt

theorem selectLatestSorted_spec (p : String × Nat → Bool) (es : List (String × Nat))
    (h : es.filter p ≠ []) :
    ∃ e, selectLatestSorted (es.filter p) = some e ∧ e ∈ es ∧ p e = true ∧
      ∀ x ∈ es, p x = true → x.2 ≤ e.2 := by
  have hperm := sortLeB_perm leMtime (es.filter p)
  have hne : sortLeB leMtime (es.filter p) ≠ [] := by
    intro h0
    apply h
    have hlen := hperm.length_eq
    rw [h0] at hlen
    simp at hlen
    exact List.length_eq_zero.1 hlen.symm
  refine ⟨(sortLeB leMtime (es.filter p)).getLast hne, ?_, ?_, ?_, ?_⟩
  · unfold selectLatestSorted
    exact List.getLast?_eq_getLast _ hne
  · have he := List.getLast_mem hne
    exact (List.mem_filter.1 (hperm.mem_iff.1 he)).1
  · have he := List.getLast_mem hne
    exact (List.mem_filter.1 (hperm.mem_iff.1 he)).2
  · intro x hx hpx
    have hxs : x ∈ sortLeB leMtime (es.filter p) :=
      hperm.mem_iff.2 (List.mem_filter.2 ⟨hx, hpx⟩)
    have hle := pairwise_le_getLast leMtime (fun a => by simp [leMtime]) _ hne
      (sortLeB_pairwise leMtime leMtime_total leMtime_trans _) x hxs
    simpa [leMtime] using hle

/-- Claim C3 (counterexample): with two entries sharing the maximal mtime, the
selection is NOT the lexicographically greatest filename and NOT independent
of enumeration order: from the listing `[b.txt, a.txt]` (both mtime 5) the
`sorted(...)[-1]` variant picks `a.txt`, from `[a.txt, b.txt]` it picks
`b.txt`; the `max(...)` variant picks the first-listed `a.txt` rather than
the lexicographically greatest `b.txt`. -/
theorem c3_counterexample :
    selectLatestSorted [("b.txt", 5), ("a.txt", 5)] = some ("a.txt", 5) ∧
    selectLatestSorted [("a.txt", 5), ("b.txt", 5)] = some ("b.txt", 5) ∧
    selectLatestMax [("a.txt", 5), ("b.txt", 5)] = some ("a.txt", 5) ∧
    ("a.txt", 5) ≠ (("b.txt", 5) : String × Nat) :=
  ⟨by decide, by decide, by decide, by decide⟩

/-- Claim C3 (amended): among the matching entries, artifact selection does
return an entry with the maximal modification timestamp; but ties are broken
by directory enumeration order (the last-enumerated maximal entry for the
`sorted(...)[-1]` variant), not lexicographically, so the result depends on
enumeration order. -/
theorem c3_amended (es : List (String × Nat))
    (h1 : es.filter (fun e => matchesStat e.1) ≠ [])
    (h2 : es.filter (fun e => matchesTxt e.1) ≠ []) :
    (∃ e, selStatFile es = some e ∧ e ∈ es ∧ matchesStat e.1 = true ∧
      ∀ x ∈ es, matchesStat x.1 = true → x.2 ≤ e.2) ∧
    (∃ e, selCollapsedFile es = some e ∧ e ∈ es ∧ matchesTxt e.1 = true ∧
      ∀ x ∈ es, matchesTxt x.1 = true → x.2 ≤ e.2) :=
  ⟨selectLatestSorted_spec (fun e => matchesStat e.1) es h1,
   selectLatestSorted_spec (fun e => matchesTxt e.1) es h2⟩

/-- Witness for C3: a concrete listing containing perf-stat and `.txt`
entries, on which the amended selection property holds. -/
theorem c3_witness :
    (∃ e, selStatFile [("perf-stat-a", 3), ("x.txt", 2), ("perf-stat-b", 7), ("y.txt", 9)] =
        some e ∧
      e ∈ [("perf-stat-a", 3), ("x.txt", 2), ("perf-stat-b", 7), ("y.txt", 9)] ∧
      matchesStat e.1 = true ∧
      ∀ x ∈ [("perf-stat-a", 3), ("x.txt", 2), ("perf-stat-b", 7), ("y.txt", 9)],
        matchesStat x.1 = true → x.2 ≤ e.2) ∧
    (∃ e, selCollapsedFile [("perf-stat-a", 3), ("x.txt", 2), ("perf-stat-b", 7), ("y.txt", 9)] =
        some e ∧
      e ∈ [("perf-stat-a", 3), ("x.txt", 2), ("perf-stat-b", 7), ("y.txt", 9)] ∧
      matchesTxt e.1 = true ∧
      ∀ x ∈ [("perf-stat-a", 3), ("x.txt", 2), ("perf-stat-b", 7), ("y.txt", 9)],
        matchesTxt x.1 = true → x.2 ≤ e.2) :=
  c3_amended [("perf-stat-a", 3), ("x.txt", 2), ("perf-stat-b", 7), ("y.txt", 9)]
    (by decide) (by decide)

/-! ## C4: output path resolution -/

theorem strNeAppendSuffix (s u t : String) (hu : u.length = 1) : s ≠ s ++ u ++ t := by
  intro h
  have hl := congrArg String.length h
  rw [String.length_append, String.length_append, hu] at hl
  omega

theorem strAppendRightCancel (a t1 t2 : String) (h : a ++ t1 = a ++ t2) : t1 = t2 := by
  have hd := congrArg String.data h
  rw [String.data_append, String.data_append] at hd
  exact String.ext (List.append_cancel_left hd)

/-- Claim C4 (counterexample): when `base/requested` already exists, two calls
within the same strftime second (equal timestamp strings) return the SAME
timestamped path, even with the first call's directory created in between —
the claimed "never yields the same path twice" fails. -/
theorem c4_counterexample :
    uniqueVersionDir ["b/r"] "b" "r" "20260101-120000" = "b/r_20260101-120000" ∧
    uniqueVersionDir ["b/r_20260101-120000", "b/r"] "b" "r" "20260101-120000" =
      "b/r_20260101-120000" :=
  ⟨by decide, by decide⟩

/-- Claim C4 (amended): `_unique_version_dir` returns `base/requested` when
that path does not exist, and `base/requested_<timestamp>` otherwise; calling
it twice with the first call's directory created in between never yields the
same path twice PROVIDED `base/requested` did not already exist before the
first call, or the two calls observe different timestamp strings (two calls
within the same second on an already-existing directory collide). -/
theorem c4_amended (existing : List String) (base req ts1 ts2 : String) :
    ((base ++ "/" ++ req) ∉ existing →
      uniqueVersionDir existing base req ts1 = base ++ "/" ++ req) ∧
    ((base ++ "/" ++ req) ∈ existing →
      uniqueVersionDir existing base req ts1 = base ++ "/" ++ (req ++ "_" ++ ts1)) ∧
    (((base ++ "/" ++ req) ∉ existing ∨ ts1 ≠ ts2) →
      uniqueVersionDir existing base req ts1 ≠
        uniqueVersionDir ((uniqueVersionDir existing base req ts1) :: existing) base req ts2) := by
  refine ⟨?_, ?_, ?_⟩
  · intro h
    unfold uniqueVersionDir
    rw [if_neg h]
  · intro h
    unfold uniqueVersionDir
    rw [if_pos h]
  · intro hd
    by_cases hmem : (base ++ "/" ++ req) ∈ existing
    · have hts : ts1 ≠ ts2 := by
        rcases hd with h | h
        · exact absurd hmem h
        · exact h
      unfold uniqueVersionDir
      rw [if_pos hmem, if_pos (List.mem_cons_of_mem _ hmem)]
      intro heq
      apply hts
      have e1 : base ++ "/" ++ (req ++ "_" ++ ts1) = (base ++ "/" ++ (req ++ "_")) ++ ts1 := by
        simp [String.append_assoc]
      have e2 : base ++ "/" ++ (req ++ "_" ++ ts2) = (base ++ "/" ++ (req ++ "_")) ++ ts2 := by
        simp [String.append_assoc]
      rw [e1, e2] at heq
      exact strAppendRightCancel _ _ _ heq
    · unfold uniqueVersionDir
      rw [if_neg hmem, if_pos (List.mem_cons_self _ _)]
      have e2 : base ++ "/" ++ (req ++ "_" ++ ts2) =
          (base ++ "/" ++ req) ++ "_" ++ ts2 := by
        simp [String.append_assoc]
      rw [e2]
      exact strNeAppendSuffix (base ++ "/" ++ req) "_" ts2 rfl

/-- Witness for C4: with an empty filesystem the first call returns `b/r`,
and after creating it the second call returns a different path. -/
theorem c4_witness :
    uniqueVersionDir [] "b" "r" "20260101-120000" ≠
      uniqueVersionDir [uniqueVersionDir [] "b" "r" "20260101-120000"] "b" "r"
        "20260101-120001" :=
  (c4_amended [] "b" "r" "20260101-120000" "20260101-120001").2.2 (Or.inl (by decide))

/-! ## C8 and C10: benchmark parser error recovery -/

theorem any_eq_alu_isSome (key : String) :
    ∀ kvs : List (String × JVal),
      (kvs.any (fun kv => kv.1 = key)) = (alu kvs key).isSome := by
  intro kvs
  induction kvs with
  | nil => rfl
  | cons e rest ih =>
    obtain ⟨k, v⟩ := e
    by_cases h : k = key
    · simp [alu, h]
    · simp [alu, h, ih]

theorem benchStep_obj (recs : List (JVal × JVal)) (kvs : List (String × JVal)) :
    benchStep recs (.obj kvs) = .ok (recs ++ (objRecord (.obj kvs)).toList) := by
  unfold benchStep objRecord
  cases h1 : alu kvs "name" with
  | none =>
    have ha1 : (kvs.any (fun kv => kv.1 = "name")) = false := by
      rw [any_eq_alu_isSome, h1]; rfl
    simp [pyIn, ha1, h1]
  | some n =>
    have ha1 : (kvs.any (fun kv => kv.1 = "name")) = true := by
      rw [any_eq_alu_isSome, h1]; rfl
    cases h2 : alu kvs "cpu_time" with
    | none =>
      have ha2 : (kvs.any (fun kv => kv.1 = "cpu_time")) = false := by
        rw [any_eq_alu_isSome, h2]; rfl
      simp [pyIn, ha1, ha2, h1, h2]
    | some t =>
      have ha2 : (kvs.any (fun kv => kv.1 = "cpu_time")) = true := by
        rw [any_eq_alu_isSome, h2]; rfl
      simp [pyIn, pySubscript, ha1, ha2, h1, h2]

theorem benchGo_objs :
    ∀ (es : List JVal), (∀ e ∈ es, e.isObjB = true) →
      ∀ recs, benchGo recs es = .ok (recs ++ es.filterMap objRecord) := by
  intro es
  induction es with
  | nil => intro _ recs; simp [benchGo]
  | cons e es ih =>
    intro h recs
    have he : e.isObjB = true := h e (List.mem_cons_self _ _)
    cases e with
    | obj kvs =>
      rw [benchGo, benchStep_obj]
      show benchGo (recs ++ (objRecord (JVal.obj kvs)).toList) es = _
      rw [ih (fun e' he' => h e' (List.mem_cons_of_mem _ he')) _]
      cases ho : objRecord (.obj kvs) with
      | none => simp [List.filterMap_cons, ho]
      | some r => simp [List.filterMap_cons, ho]
    | str s => simp [JVal.isObjB] at he
    | num q => simp [JVal.isObjB] at he
    | jTrue => simp [JVal.isObjB] at he
    | jFalse => simp [JVal.isObjB] at he
    | jNull => simp [JVal.isObjB] at he
    | arr xs => simp [JVal.isObjB] at he

/-- Claim C8 (counterexample): a benchmarks array holding one valid object
entry followed by a number makes `parse_google_benchmark` return the empty
list — the record of the valid entry is discarded rather than emitted. -/
theorem c8_counterexample :
    parse_google_benchmark (.ok (.obj [("benchmarks",
        .arr [.obj [("name", .str "evt"), ("cpu_time", .num 5)], .num 7])])) = [] ∧
    objRecord (.obj [("name", .str "evt"), ("cpu_time", .num 5)]) =
      some (.str "evt", .num 5) ∧
    ([] : List (JVal × JVal)).length ≠
      [((.str "evt" : JVal), (.num 5 : JVal))].length :=
  ⟨rfl, rfl, by decide⟩

/-- Claim C8 (amended): `parse_google_benchmark` never raises — unreadable or
malformed JSON and a missing `benchmarks` field yield an empty list — and
when every entry of the benchmarks array is an object it emits one record per
entry having both a `name` and a `cpu_time` field, skipping objects missing
either; but a non-object entry aborts the whole loop and empties the result
(see C10). -/
theorem c8_amended (kvs : List (String × JVal)) (es : List JVal)
    (hobj : ∀ e ∈ es, e.isObjB = true) :
    parse_google_benchmark (.error ()) = [] ∧
    (alu kvs "benchmarks" = none → parse_google_benchmark (.ok (.obj kvs)) = []) ∧
    parse_google_benchmark (.ok (.obj [("benchmarks", .arr es)])) =
      es.filterMap objRecord := by
  refine ⟨rfl, ?_, ?_⟩
  · intro h
    simp [parse_google_benchmark, benchBody, jGetBenchmarks, h, pyIter, benchGo]
  · have hgo := benchGo_objs es hobj []
    simp [parse_google_benchmark, benchBody, jGetBenchmarks, alu, pyIter, hgo]

/-- Witness for C8: a benchmarks array of two objects, the second missing
`cpu_time`, yields exactly the record of the first. -/
theorem c8_witness :
    parse_google_benchmark (.ok (.obj [("benchmarks",
        .arr [.obj [("name", .str "A"), ("cpu_time", .num 5)],
              .obj [("name", .str "B")]])])) = [(.str "A", .num 5)] := by
  have h := (c8_amended []
    [.obj [("name", .str "A"), ("cpu_time", .num 5)], .obj [("name", .str "B")]]
    (by decide)).2.2
  rw [h]
  rfl

/-- Claim C10 (confirmed): per-entry recovery is all-or-nothing: the document
whose benchmarks array is `[{name: X, cpu_time: 7}, true]` raises a
`TypeError` at the boolean entry (`"name" in True`), the catch-all returns
the empty list, and the record already built from the valid first entry is
discarded — whereas without the trailing entry that record is returned. -/
theorem c10_theorem :
    parse_google_benchmark (.ok (.obj [("benchmarks",
        .arr [.obj [("name", .str "X"), ("cpu_time", .num 7)], .jTrue])])) = [] ∧
    benchBody (.ok (.obj [("benchmarks",
        .arr [.obj [("name", .str "X"), ("cpu_time", .num 7)], .jTrue])])) = .error () ∧
    parse_google_benchmark (.ok (.obj [("benchmarks",
        .arr [.obj [("name", .str "X"), ("cpu_time", .num 7)]])])) = [(.str "X", .num 7)] :=
  ⟨rfl, rfl, rfl⟩
